import Mathlib

/-!
Verification of the TwitchBeanSpinner spin pipeline (src/main.py).

The embedding models the core described in the spec: the Spin Queue
(`spin_queue`, an asyncio.Queue of string tokens), the Connection Registry
(`clients`, a Python set of WebSocket handles), the Spin Processor
(`spin_processor`, the single consumer loop), the EventSub webhook handler
(`eventsub`), the chat command handler (`on_spin_message`) and the
per-connection WebSocket handler (`ws_spin`).

Python-specific semantics that matter here and are modelled faithfully:
- `set.remove` raises KeyError when the element is absent (main.py:221);
- `asyncio.gather` with the default return_exceptions=False propagates the
  first exception out of the awaiting coroutine, while the sibling send
  tasks still run to completion on the event loop (main.py:109);
- an exception escaping the body of `spin_processor`'s `while True` loop
  skips `asyncio.sleep(9)` and terminates the processor task for good;
- Python truthiness: `webhook_payload.get("challenge")` is falsy both when
  the key is missing and when it maps to the empty string (main.py:196).
-/

namespace BeanSpinner

/-- A WebSocket connection handle: a unique id plus whether its transport is
currently writable, i.e. whether `send_text` on it succeeds. -/
structure Conn where
  id : Nat
  alive : Bool
deriving DecidableEq, Repr

/-- Registry insertion, `clients.add(ws)` (main.py:211). The registry is a
Python set; insertion of a member already present is a no-op. The set is
modelled as a duplicate-free list of handle ids. -/
def registry_add (reg : List Nat) (h : Nat) : List Nat :=
  if h ∈ reg then reg else reg ++ [h]

/-- Registry removal, `clients.remove(ws)` (main.py:221). Python `set.remove`
raises KeyError when the element is absent; it does not fall back to a no-op. -/
def registry_remove (reg : List Nat) (h : Nat) : Except String (List Nat) :=
  if h ∈ reg then Except.ok (reg.erase h) else Except.error "KeyError"

/-- One broadcast pass of the Spin Processor (main.py:107-111): when `clients`
is nonempty, `asyncio.gather` runs `ws.send_text("spin")` for every member.
Returns the ids whose send succeeded and the ids whose send raised. With the
default return_exceptions=False every task is still scheduled and the writable
members are delivered even when some send raises; the first exception is then
re-raised out of the `await asyncio.gather(...)`. -/
def broadcast (reg : List Conn) : List Nat × List Nat :=
  if reg.isEmpty then ([], [])
  else ((reg.filter (fun c => c.alive)).map (fun c => c.id),
        (reg.filter (fun c => !c.alive)).map (fun c => c.id))

/-- The observable outcome of processing one trigger in `spin_processor`. -/
structure SpinEvent (α : Type) where
  trigger : α
  startTime : Nat
  message : String
  delivered : List Nat
  sendErrors : List Nat
deriving DecidableEq, Repr

/-- The Spin Processor loop (main.py:103-114) run over a pre-submitted FIFO
list of triggers, with `regAt k` the contents of `clients` at the moment the
k-th trigger's broadcast starts (the snapshot iterated at main.py:109). Each
completed iteration broadcasts the literal `"spin"` and then runs
`asyncio.sleep(9)`, so the time counter advances by 9 per spin. When a send
raises, the exception propagates out of the un-guarded loop body: the sleep is
skipped and the processor task dies, leaving the remaining triggers
unprocessed. The processor never mutates the registry. -/
def spin_processor {α : Type} (regAt : Nat → List Conn) : Nat → Nat → List α → List (SpinEvent α)
  | _, _, [] => []
  | k, t, tr :: rest =>
    let bc := broadcast (regAt k)
    if bc.2.isEmpty then
      ⟨tr, t, "spin", bc.1, bc.2⟩ :: spin_processor regAt (k + 1) (t + 9) rest
    else
      [⟨tr, t, "spin", bc.1, bc.2⟩]

/-- The fields of the EventSub webhook payload that the handler reads
(main.py:194-205). `challenge` is the payload's challenge string when the key
is present; `subscriptionType` is `payload["subscription"]["type"]`; `bits`
and `userName` come from `payload["event"]`. -/
structure WebhookPayload where
  challenge : Option String
  subscriptionType : Option String
  bits : Int
  userName : String
deriving DecidableEq, Repr

/-- Python truthiness of `webhook_payload.get("challenge")` (main.py:196): a
missing key and the empty string are both falsy. -/
def truthy_challenge (p : WebhookPayload) : Bool :=
  match p.challenge with
  | some s => decide (s ≠ "")
  | none => false

/-- The HTTP response bodies the eventsub endpoint can return: the JSON echo
of the challenge (main.py:197) or the final status-ok object (main.py:205). -/
inductive EventsubResponse where
  | challengeReply (s : String)
  | statusOk
deriving DecidableEq, Repr

/-- The POST /eventsub handler (main.py:194-205), parameterized by the
configured BIT_SPIN_AMOUNT threshold (main.py:28, default 555). Returns the
response together with the list of tokens put on `spin_queue` by the call. -/
def eventsub (bitSpinAmount : Int) (p : WebhookPayload) : EventsubResponse × List String :=
  if truthy_challenge p then
    (EventsubResponse.challengeReply (p.challenge.getD ""), [])
  else if p.subscriptionType = some "channel.cheer" then
    if p.bits = bitSpinAmount then (EventsubResponse.statusOk, ["spin"])
    else (EventsubResponse.statusOk, [])
  else (EventsubResponse.statusOk, [])

/-- The issuer of a chat command: login name and moderator flag. -/
structure ChatUser where
  name : String
  mod : Bool
deriving DecidableEq, Repr

/-- The room a chat command was issued in; its name is the broadcaster login. -/
structure ChatRoom where
  name : String
deriving DecidableEq, Repr

/-- A chat command as received by the listener registered for 'spin'. -/
structure ChatCommand where
  name : String
  user : ChatUser
  room : ChatRoom
deriving DecidableEq, Repr

/-- The chat command handler (main.py:89-94): `"spin"` is put on `spin_queue`
exactly when the command is named spin and the issuer is a moderator or the
broadcaster (the user whose name equals the room name). Returns the list of
tokens enqueued by the call. -/
def on_spin_message (cmd : ChatCommand) : List String :=
  if cmd.name = "spin" ∧ (cmd.user.mod = true ∨ cmd.user.name = cmd.room.name) then ["spin"]
  else []

/-- The operations that touch `spin_queue`: a POST to /eventsub, a chat
command, and the processor's `spin_queue.get()`. -/
inductive QueueOp where
  | webhook (bitSpinAmount : Int) (p : WebhookPayload)
  | chat (cmd : ChatCommand)
  | take
deriving Repr

/-- The queue contents together with the values `get()` has returned so far. -/
structure QueueState where
  queue : List String
  taken : List String
deriving DecidableEq, Repr

/-- Effect of one operation on `spin_queue`: the producers append whatever
tokens their handler enqueues, `get()` removes the head (suspending — here, a
no-op — when the queue is empty). -/
def queueStep (s : QueueState) : QueueOp → QueueState
  | QueueOp.webhook amt p => ⟨s.queue ++ (eventsub amt p).2, s.taken⟩
  | QueueOp.chat cmd => ⟨s.queue ++ on_spin_message cmd, s.taken⟩
  | QueueOp.take =>
    match s.queue with
    | [] => s
    | x :: rest => ⟨rest, s.taken ++ [x]⟩

/-- Run a sequence of queue operations from the initial empty queue
(main.py:44). -/
def queueRun (ops : List QueueOp) : QueueState :=
  ops.foldl queueStep ⟨[], []⟩

/-- The receive loop of the WebSocket handler (main.py:214-217): every text
received is answered with the literal `"ack"`; neither `clients` nor
`spin_queue` is touched by an iteration. State is (registry, queue); the loop
ends when the client disconnects. -/
def ws_receive_loop : List String → List Nat → List String → List String × List Nat × List String
  | [], reg, q => ([], reg, q)
  | _ :: rest, reg, q =>
    let r := ws_receive_loop rest reg q
    ("ack" :: r.1, r.2.1, r.2.2)

/-- The whole /ws/spin handler (main.py:208-221): accept and add the handle to
`clients`, answer each received text with `"ack"` until WebSocketDisconnect,
then remove the handle from `clients` in the finally block. Returns the
replies sent and the final registry and queue. -/
def ws_spin (wsId : Nat) (texts : List String) (reg : List Nat) (q : List String) :
    Except String (List String × List Nat × List String) := do
  let reg1 := registry_add reg wsId
  let r := ws_receive_loop texts reg1 q
  let reg2 ← registry_remove r.2.1 wsId
  return (r.1, reg2, r.2.2)

/-! ## Helper lemmas -/

/-- A broadcast over a registry whose members are all writable delivers to
every member and reports no send error. -/
lemma broadcast_all_alive (reg : List Conn) (h : ∀ c ∈ reg, c.alive = true) :
    broadcast reg = (reg.map (fun c => c.id), []) := by
  have h1 : reg.filter (fun c => c.alive) = reg :=
    List.filter_eq_self.mpr (fun c hc => by simpa using h c hc)
  have h2 : reg.filter (fun c => !c.alive) = [] := by
    refine List.filter_eq_nil_iff.mpr (fun c hc => ?_)
    simp [h c hc]
  cases reg with
  | nil => simp [broadcast]
  | cons a l => simp [broadcast, h1, h2]

/-- When every snapshot is all-writable, the processor run has one event per
trigger. -/
lemma spin_processor_length {α : Type} (regAt : Nat → List Conn)
    (h : ∀ k, ∀ c ∈ regAt k, c.alive = true) :
    ∀ (ts : List α) (k t : Nat), (spin_processor regAt k t ts).length = ts.length := by
  intro ts
  induction ts with
  | nil => intro k t; rfl
  | cons a rest ih =>
    intro k t
    simp [spin_processor, broadcast_all_alive (regAt k) (h k), ih]

/-- When every snapshot is all-writable, the processor serves the triggers in
FIFO submission order. -/
lemma spin_processor_triggers {α : Type} (regAt : Nat → List Conn)
    (h : ∀ k, ∀ c ∈ regAt k, c.alive = true) :
    ∀ (ts : List α) (k t : Nat),
      (spin_processor regAt k t ts).map SpinEvent.trigger = ts := by
  intro ts
  induction ts with
  | nil => intro k t; rfl
  | cons a rest ih =>
    intro k t
    simp [spin_processor, broadcast_all_alive (regAt k) (h k), ih]

/-- Closed form of the i-th spin event when every snapshot is all-writable:
the i-th trigger starts at time t + 9*i, carries the literal "spin", and is
delivered to exactly the snapshot taken for that spin. -/
lemma spin_processor_getElem {α : Type} (regAt : Nat → List Conn)
    (h : ∀ k, ∀ c ∈ regAt k, c.alive = true) :
    ∀ (ts : List α) (k t i : Nat) (a : α), ts[i]? = some a →
      (spin_processor regAt k t ts)[i]? =
        some ⟨a, t + 9 * i, "spin", (regAt (k + i)).map (fun c => c.id), []⟩ := by
  intro ts
  induction ts with
  | nil => intro k t i a ha; simp at ha
  | cons hd rest ih =>
    intro k t i a ha
    cases i with
    | zero =>
      simp at ha
      simp [spin_processor, broadcast_all_alive (regAt k) (h k), ha]
    | succ j =>
      simp at ha
      have step := ih (k + 1) (t + 9) j a ha
      have hk : k + 1 + j = k + (j + 1) := by omega
      have ht : t + 9 + 9 * j = t + 9 * (j + 1) := by ring
      simp [spin_processor, broadcast_all_alive (regAt k) (h k)]
      rw [step, hk, ht]

/-! ## Claim theorems -/

/-- C3, counterexample: removing a handle that is absent from the registry is
not a no-op — `clients.remove` is Python `set.remove`, which raises KeyError.
At the concrete input (empty registry, handle 5) the removal returns the
KeyError outcome, not the unchanged registry. -/
theorem remove_absent_not_noop :
    registry_remove [] 5 = Except.error "KeyError" ∧
    registry_remove [] 5 ≠ Except.ok [] := by
  constructor
  · rfl
  · simp [registry_remove]

/-- C3, amended: deregistering a handle that is present removes exactly that
handle; deregistering an absent handle (e.g. a second removal of the same
handle) raises KeyError and does not return an updated registry, so removal is
not idempotent. -/
theorem remove_semantics (reg : List Nat) (h : Nat) :
    (h ∈ reg → registry_remove reg h = Except.ok (reg.erase h)) ∧
    (h ∉ reg → registry_remove reg h = Except.error "KeyError") := by
  constructor
  · intro hin; simp [registry_remove, hin]
  · intro hout; simp [registry_remove, hout]

/-- C3, witness for the amended claim at concrete inputs. -/
theorem remove_semantics_witness :
    registry_remove [3] 3 = Except.ok [] ∧
    registry_remove [] 5 = Except.error "KeyError" :=
  ⟨(remove_semantics [3] 3).1 (by decide), (remove_semantics [] 5).2 (by decide)⟩

/-- C4: for a channel.cheer notification (no truthy challenge field), a
trigger is enqueued iff the bit amount equals the configured BIT_SPIN_AMOUNT;
any other amount, larger ones included, enqueues nothing. -/
theorem cheer_threshold_exact (amt : Int) (p : WebhookPayload)
    (hch : truthy_challenge p = false)
    (hty : p.subscriptionType = some "channel.cheer") :
    (eventsub amt p).2 = (if p.bits = amt then ["spin"] else []) ∧
    ((eventsub amt p).2 ≠ [] ↔ p.bits = amt) := by
  constructor
  · simp only [eventsub, hch, Bool.false_eq_true, if_false, hty, if_true]
    split <;> rfl
  · by_cases hb : p.bits = amt <;> simp [eventsub, hch, hty, hb]

/-- C4, witness: with threshold 555, a 555-bit cheer enqueues one "spin" and a
556-bit cheer enqueues nothing. -/
theorem cheer_threshold_exact_witness :
    (eventsub 555 ⟨none, some "channel.cheer", 555, "alice"⟩).2 = ["spin"] ∧
    (eventsub 555 ⟨none, some "channel.cheer", 556, "bob"⟩).2 = [] := by
  constructor
  · have h := (cheer_threshold_exact 555 ⟨none, some "channel.cheer", 555, "alice"⟩ rfl rfl).1
    simpa using h
  · have h := (cheer_threshold_exact 555 ⟨none, some "channel.cheer", 556, "bob"⟩ rfl rfl).1
    simpa using h

/-- C5: the chat handler enqueues a trigger iff the command is the spin
command and its issuer is a moderator or the broadcaster (user name equal to
the room name); any other command or issuer enqueues nothing. -/
theorem chat_command_mod_gate (cmd : ChatCommand) :
    (on_spin_message cmd = ["spin"] ↔
      cmd.name = "spin" ∧ (cmd.user.mod = true ∨ cmd.user.name = cmd.room.name)) ∧
    (on_spin_message cmd = ["spin"] ∨ on_spin_message cmd = []) := by
  unfold on_spin_message
  constructor
  · split <;> simp_all
  · split <;> simp

/-- C9: a POST to /eventsub whose payload carries a truthy challenge value is
answered with the JSON echo of that challenge and enqueues nothing, even when
the rest of the payload is a threshold-matching cheer. -/
theorem challenge_echo (amt : Int) (p : WebhookPayload) (s : String)
    (hs : p.challenge = some s) (hne : s ≠ "") :
    (eventsub amt p).1 = EventsubResponse.challengeReply s ∧
    (eventsub amt p).2 = [] := by
  have ht : truthy_challenge p = true := by simp [truthy_challenge, hs, hne]
  constructor
  · simp [eventsub, ht, hs]
  · simp [eventsub, ht]

/-- C9, witness: a challenge request whose event part is a matching cheer is
echoed and still enqueues nothing. -/
theorem challenge_echo_witness :
    (eventsub 555 ⟨some "abc", some "channel.cheer", 555, "alice"⟩).1 =
      EventsubResponse.challengeReply "abc" ∧
    (eventsub 555 ⟨some "abc", some "channel.cheer", 555, "alice"⟩).2 = [] :=
  challenge_echo 555 ⟨some "abc", some "channel.cheer", 555, "alice"⟩ "abc" rfl (by decide)

/-- C10: the /ws/spin handler answers every received text with the literal
"ack" regardless of content, and client-sent text alters neither the registry
nor the queue: the whole session returns one "ack" per text, the queue it was
given, and the registry with only the session's own add/remove applied. -/
theorem ws_text_acked (wsId : Nat) (texts : List String) (reg : List Nat) (q : List String) :
    ws_spin wsId texts reg q =
      Except.ok (texts.map (fun _ => "ack"), (registry_add reg wsId).erase wsId, q) := by
  have hloop : ∀ (ts : List String) (r : List Nat) (qq : List String),
      ws_receive_loop ts r qq = (ts.map (fun _ => "ack"), r, qq) := by
    intro ts
    induction ts with
    | nil => intro r qq; rfl
    | cons a rest ih => intro r qq; simp [ws_receive_loop, ih]
  have hmem : wsId ∈ registry_add reg wsId := by
    by_cases hin : wsId ∈ reg <;> simp [registry_add, hin]
  simp [ws_spin, hloop, registry_remove, hmem]

/-- C1: over any sequence of N submitted triggers, with every snapshot member
writable, the processor performs exactly N spins, in FIFO submission order;
the i-th spin starts at time 9*i, carries the literal "spin" to exactly the
members of the registry snapshot taken for that spin, and consecutive spins
are separated by no less than the 9-unit Cooldown Period. -/
theorem spin_fifo_cooldown {α : Type} (regAt : Nat → List Conn) (ts : List α)
    (h : ∀ k, ∀ c ∈ regAt k, c.alive = true) :
    (spin_processor regAt 0 0 ts).length = ts.length ∧
    (spin_processor regAt 0 0 ts).map SpinEvent.trigger = ts ∧
    (∀ i a, ts[i]? = some a →
      (spin_processor regAt 0 0 ts)[i]? =
        some (SpinEvent.mk a (9 * i) "spin" ((regAt i).map (fun c => c.id)) [])) ∧
    (∀ i ev ev2, (spin_processor regAt 0 0 ts)[i]? = some ev →
      (spin_processor regAt 0 0 ts)[i + 1]? = some ev2 →
      ev.startTime + 9 ≤ ev2.startTime) := by
  refine ⟨spin_processor_length regAt h ts 0 0, spin_processor_triggers regAt h ts 0 0, ?_, ?_⟩
  · intro i a ha
    have hg := spin_processor_getElem regAt h ts 0 0 i a ha
    simpa using hg
  · intro i ev ev2 hev hev2
    have hrun : i + 1 < (spin_processor regAt 0 0 ts).length := by
      by_contra hc
      push_neg at hc
      rw [List.getElem?_eq_none hc] at hev2
      exact Option.noConfusion hev2
    have hlen : i + 1 < ts.length := by
      have hr := spin_processor_length regAt h ts 0 0
      omega
    have ha : ts[i]? = some ts[i] := List.getElem?_eq_getElem (by omega)
    have hb : ts[i + 1]? = some ts[i + 1] := List.getElem?_eq_getElem hlen
    have e1 := spin_processor_getElem regAt h ts 0 0 i ts[i] ha
    have e2 := spin_processor_getElem regAt h ts 0 0 (i + 1) ts[i + 1] hb
    rw [hev] at e1
    rw [hev2] at e2
    obtain rfl := Option.some.inj e1
    obtain rfl := Option.some.inj e2
    simp only []
    omega

/-- C1, witness: two triggers with one connected client produce two spins, the
second at time 9 delivering "spin" to client 1. -/
theorem spin_fifo_cooldown_witness :
    (spin_processor (fun _ => [Conn.mk 1 true]) 0 0 ["a", "b"]).length = 2 ∧
    (spin_processor (fun _ => [Conn.mk 1 true]) 0 0 ["a", "b"])[1]? =
      some ⟨"b", 9, "spin", [1], []⟩ := by
  have hreg : ∀ k : Nat, ∀ c ∈ [Conn.mk 1 true], c.alive = true := by
    intro k c hc
    simp at hc
    simp [hc]
  have h := spin_fifo_cooldown (fun _ => [Conn.mk 1 true]) ["a", "b"] hreg
  refine ⟨h.1, ?_⟩
  have := h.2.2.1 1 "b" rfl
  simpa using this

/-- C2, at the failing input: a registry holding a writable client 1 and a
broken client 2, with two queued triggers. The sibling send still delivers to
client 1 (gather schedules every task), but the send error propagates out of
the loop body: the run stops after the first event, so the cooldown is
skipped, the second trigger is never processed, and the processor removes
nothing from the registry (it never mutates it). The claim's recovery
behaviour does not hold. -/
theorem send_failure_kills_processor :
    spin_processor (fun _ => [Conn.mk 1 true, Conn.mk 2 false]) 0 0 ["a", "b"] =
      [⟨"a", 0, "spin", [1], [2]⟩] := rfl

/-- C6: with zero connected clients each trigger is processed with no send and
no error and the full 9-unit cooldown runs before the next trigger (three
triggers give spins at times 0, 9, 18) — but the cooldown is not unconditional:
at a registry holding one broken client the send error aborts the run after the
first event, so the cooldown is skipped and the second trigger is never taken,
contradicting the claim's "always runs to completion". -/
theorem zero_clients_full_cooldown :
    spin_processor (fun _ => ([] : List Conn)) 0 0 ["a", "b", "c"] =
      [⟨"a", 0, "spin", [], []⟩, ⟨"b", 9, "spin", [], []⟩, ⟨"c", 18, "spin", [], []⟩] ∧
    spin_processor (fun _ => [Conn.mk 7 false]) 0 0 ["a", "b"] =
      [⟨"a", 0, "spin", [], [7]⟩] :=
  ⟨rfl, rfl⟩

/-- C7: the recipients of spin i are exactly the snapshot taken at that spin's
start: a connection absent from snapshot i but present in snapshot i+1 (e.g.
one that joined mid-cooldown) receives nothing in spin i and receives "spin"
in spin i+1. -/
theorem snapshot_excludes_midcooldown_join {α : Type} (regAt : Nat → List Conn)
    (ts : List α) (c : Conn) (i : Nat) (a b : α)
    (halive : ∀ k, ∀ x ∈ regAt k, x.alive = true)
    (ha : ts[i]? = some a) (hb : ts[i + 1]? = some b)
    (hnot : c.id ∉ (regAt i).map (fun x => x.id))
    (hin : c ∈ regAt (i + 1)) :
    (∃ ev, (spin_processor regAt 0 0 ts)[i]? = some ev ∧ c.id ∉ ev.delivered) ∧
    (∃ ev, (spin_processor regAt 0 0 ts)[i + 1]? = some ev ∧ c.id ∈ ev.delivered) := by
  have h1 := spin_processor_getElem regAt halive ts 0 0 i a ha
  have h2 := spin_processor_getElem regAt halive ts 0 0 (i + 1) b hb
  refine ⟨⟨_, h1, by simpa using hnot⟩, ⟨_, h2, ?_⟩⟩
  simp only [Nat.zero_add]
  exact List.mem_map.mpr ⟨c, hin, rfl⟩

/-- C7, witness: client 2 joins after spin 0's snapshot; it gets nothing in
spin 0 and gets the broadcast of spin 1. -/
theorem snapshot_excludes_midcooldown_join_witness :
    (∃ ev, (spin_processor
        (fun k => if k = 0 then [Conn.mk 1 true] else [Conn.mk 1 true, Conn.mk 2 true])
        0 0 ["a", "b"])[0]? = some ev ∧ 2 ∉ ev.delivered) ∧
    (∃ ev, (spin_processor
        (fun k => if k = 0 then [Conn.mk 1 true] else [Conn.mk 1 true, Conn.mk 2 true])
        0 0 ["a", "b"])[1]? = some ev ∧ 2 ∈ ev.delivered) := by
  have halive : ∀ k : Nat,
      ∀ x ∈ (if k = 0 then [Conn.mk 1 true] else [Conn.mk 1 true, Conn.mk 2 true]),
        x.alive = true := by
    intro k x hx
    by_cases hk : k = 0 <;> simp [hk] at hx
    · simp [hx]
    · rcases hx with hx | hx <;> simp [hx]
  exact snapshot_excludes_midcooldown_join
    (fun k => if k = 0 then [Conn.mk 1 true] else [Conn.mk 1 true, Conn.mk 2 true])
    ["a", "b"] (Conn.mk 2 true) 0 "a" "b" halive rfl rfl (by decide) (by decide)

/-- Every token the webhook handler puts on the queue is the literal "spin". -/
lemma eventsub_tokens (amt : Int) (p : WebhookPayload) (x : String)
    (hx : x ∈ (eventsub amt p).2) : x = "spin" := by
  unfold eventsub at hx
  split at hx
  · simp at hx
  · split at hx
    · split at hx <;> simp_all
    · simp at hx

/-- Every token the chat handler puts on the queue is the literal "spin". -/
lemma chat_tokens (cmd : ChatCommand) (x : String)
    (hx : x ∈ on_spin_message cmd) : x = "spin" := by
  unfold on_spin_message at hx
  split at hx <;> simp_all

/-- One queue operation preserves the all-tokens-are-"spin" invariant. -/
lemma queueStep_preserves (s : QueueState) (op : QueueOp)
    (h1 : ∀ x ∈ s.queue, x = "spin") (h2 : ∀ x ∈ s.taken, x = "spin") :
    (∀ x ∈ (queueStep s op).queue, x = "spin") ∧
    (∀ x ∈ (queueStep s op).taken, x = "spin") := by
  cases op with
  | webhook amt p =>
    refine ⟨?_, h2⟩
    intro x hx
    simp only [queueStep, List.mem_append] at hx
    rcases hx with hx | hx
    · exact h1 x hx
    · exact eventsub_tokens amt p x hx
  | chat cmd =>
    refine ⟨?_, h2⟩
    intro x hx
    simp only [queueStep, List.mem_append] at hx
    rcases hx with hx | hx
    · exact h1 x hx
    · exact chat_tokens cmd x hx
  | take =>
    cases hq : s.queue with
    | nil =>
      constructor
      · intro x hx
        simp only [queueStep, hq] at hx
        exact absurd hx (List.not_mem_nil x)
      · intro x hx
        simp only [queueStep, hq] at hx
        exact h2 x hx
    | cons y rest =>
      constructor
      · intro x hx
        simp only [queueStep, hq] at hx
        exact h1 x (by simp [hq, hx])
      · intro x hx
        simp only [queueStep, hq, List.mem_append, List.mem_singleton] at hx
        rcases hx with hx | hx
        · exact h2 x hx
        · subst hx; exact h1 x (by simp [hq])

/-- The invariant holds along any foldl over queue operations. -/
lemma queueRun_aux (ops : List QueueOp) :
    ∀ s : QueueState, (∀ x ∈ s.queue, x = "spin") → (∀ x ∈ s.taken, x = "spin") →
      (∀ x ∈ (ops.foldl queueStep s).queue, x = "spin") ∧
      (∀ x ∈ (ops.foldl queueStep s).taken, x = "spin") := by
  induction ops with
  | nil => intro s h1 h2; exact ⟨h1, h2⟩
  | cons op rest ih =>
    intro s h1 h2
    have h := queueStep_preserves s op h1 h2
    simpa [List.foldl] using ih (queueStep s op) h.1 h.2

/-- C8: after any sequence of producer and consumer operations starting from
the empty queue, every token still on the queue and every value `get()` has
returned is the literal string "spin". -/
theorem queue_tokens_always_spin (ops : List QueueOp) :
    (∀ x ∈ (queueRun ops).queue, x = "spin") ∧
    (∀ x ∈ (queueRun ops).taken, x = "spin") := by
  have h := queueRun_aux ops ⟨[], []⟩ (by simp) (by simp)
  simpa [queueRun] using h

/-- C8, witness: a moderator spin command followed by a take; the taken value
is "spin". -/
theorem queue_tokens_always_spin_witness :
    "spin" ∈ (queueRun [QueueOp.chat ⟨"spin", ⟨"mod1", true⟩, ⟨"strmr"⟩⟩, QueueOp.take]).taken ∧
    "spin" = "spin" := by
  refine ⟨by decide, ?_⟩
  exact (queue_tokens_always_spin
    [QueueOp.chat ⟨"spin", ⟨"mod1", true⟩, ⟨"strmr"⟩⟩, QueueOp.take]).2 "spin" (by decide)

end BeanSpinner
